import Mathlib

/-!
Verification of the canonical JSON codec in `prost-types/src/serde.rs`
(sisudata/prost). The Rust serde visitors are shallowly embedded: each
visitor method becomes a Lean function over a `Json` token tree, machine
integers become `Int`/`Nat` with explicit wrapping or saturation where the
source casts, and `f64` values are modelled by the inductive `F64` below.
-/

namespace ProstSerde

/-- Unreduced rational number: `num / den` with `den` kept positive by
construction. Finite `f64` values are modelled as exact rationals; the
claims checked here never depend on 53-bit mantissa rounding of arithmetic
results, only on the rounding performed by the explicit integer casts,
which are modelled separately (`castIntF64`, `f64ToI64Sat`, ...).
The representation is deliberately not normalized (no gcd) so that the
kernel can evaluate it. -/
structure QR where
  num : Int
  den : Nat
deriving DecidableEq, Repr

def qrOfInt (n : Int) : QR := ⟨n, 1⟩

def qrOfNat (n : Nat) : QR := ⟨(n : Int), 1⟩

def qrNeg (q : QR) : QR := ⟨-q.num, q.den⟩

def qrAdd (a b : QR) : QR := ⟨a.num * (b.den : Int) + b.num * (a.den : Int), a.den * b.den⟩

def qrSub (a b : QR) : QR := qrAdd a (qrNeg b)

def qrMul (a b : QR) : QR := ⟨a.num * b.num, a.den * b.den⟩

/-- Comparison by cross-multiplication (denominators are positive). -/
def qrLt (a b : QR) : Bool := a.num * (b.den : Int) < b.num * (a.den : Int)

def qrLe (a b : QR) : Bool := a.num * (b.den : Int) ≤ b.num * (a.den : Int)

def qrAbs (q : QR) : QR := ⟨q.num.natAbs, q.den⟩

/-- Multiply by `10^e` (used for a positive decimal exponent). -/
def qrMulPow10 (q : QR) (e : Nat) : QR := ⟨q.num * (10 ^ e : Nat), q.den⟩

/-- Divide by `10^e` (used for a negative decimal exponent). -/
def qrDivPow10 (q : QR) (e : Nat) : QR := ⟨q.num, q.den * 10 ^ e⟩

/-- Truncation toward zero, the semantics of Rust `f64::trunc` and of the
integral part of a float-to-int `as` cast. -/
def qrTrunc (q : QR) : Int :=
  if 0 ≤ q.num then (q.num.toNat / q.den : Nat)
  else -(((-q.num).toNat / q.den : Nat))

/-- Round `a / b` to the nearest integer, ties to even (IEEE default
rounding, used by `std::time::Duration::from_secs_f64` at nanosecond
granularity and by integer-to-float casts). -/
def roundHalfEvenNat (a b : Nat) : Nat :=
  let f := a / b
  let r := a % b
  if 2 * r < b then f
  else if b < 2 * r then f + 1
  else if f % 2 = 0 then f else f + 1

/-- Model of Rust `f64`: NaN, the two infinities, or a finite value kept as
an exact rational. NaN sign/payload never influence the code under
verification (`is_nan` is always checked first), so a single `nan` point is
used. -/
inductive F64 where
  | finite (q : QR)
  | nan
  | inf
  | neginf
deriving DecidableEq, Repr

def F64.isNan : F64 → Bool
  | .nan => true
  | _ => false

def F64.isInfinite : F64 → Bool
  | .inf => true
  | .neginf => true
  | _ => false

def F64.isFinite : F64 → Bool
  | .finite _ => true
  | _ => false

/-- Rust `f64::is_sign_negative` on the values producible by the modelled
float parser (which collapses `-0.0` to `0`, and only produces positive
NaN). -/
def F64.isSignNegative : F64 → Bool
  | .finite q => q.num < 0
  | .neginf => true
  | _ => false

def F64.neg : F64 → F64
  | .finite q => .finite (qrNeg q)
  | .nan => .nan
  | .inf => .neginf
  | .neginf => .inf

/-- `f64::EPSILON` = 2^-52. -/
def f64Epsilon : QR := ⟨1, 2 ^ 52⟩

/-- Largest finite `f64`, (2^53 - 1) * 2^971, written as a numeral so the
kernel can use it directly. -/
def maxF64 : QR := ⟨179769313486231570814527423731704356798070567525844996598917476803157260780028538760589558632766878171540458953514382464234321326889464182768467546703537516986049910576551282076245490090389328944075868508455133942304583236903222948165808559332123348274797826204144723168738177180919299881250404026184124858368, 1⟩


/-- Serde decoding error, mirroring the `serde::de::Error` constructions
used in the source: `custom` messages, `invalid_type` and `invalid_value`
(unexpected token rendered as a string, plus the visitor's `expecting`
message). Error messages of external parsers (`ParseIntError`,
`ParseFloatError`) are abbreviated to fixed strings; no claim depends on
their text. -/
inductive Err where
  | custom (msg : String)
  | invalidType (unexpected : String) (expected : String)
  | invalidValue (unexpected : String) (expected : String)
deriving DecidableEq, Repr

/-- Result of a decode step that can also panic (needed because
`std::time::Duration::from_secs_f64` panics rather than returning an
error). -/
inductive Outcome (α : Type) where
  | ok (a : α)
  | error (e : Err)
  | panics (msg : String)
deriving DecidableEq, Repr

def Outcome.isPanic {α : Type} : Outcome α → Bool
  | .panics _ => true
  | _ => false

/-- JSON token tree presented to a visitor by `deserialize_any`: the
self-describing deserializer dispatches `visit_bool`, `visit_i64` (negative
integers), `visit_u64` (non-negative integers), `visit_f64`, `visit_str`,
`visit_unit` (null), `visit_seq`, `visit_map`. Visitor methods a codec does
not implement fall back to serde's default, an `invalid_type` error. -/
inductive Json where
  | null
  | bool (b : Bool)
  | numI (n : Int)
  | numU (n : Nat)
  | numF (x : F64)
  | str (s : String)
  | arr (items : List Json)
  | obj (entries : List (String × Json))
deriving Repr

/-- Token-kind description used in serde's `invalid_type` messages. -/
def jsonKindName : Json → String
  | .null => "unit value"
  | .bool _ => "boolean"
  | .numI _ => "integer"
  | .numU _ => "integer"
  | .numF _ => "floating point value"
  | .str _ => "string"
  | .arr _ => "sequence"
  | .obj _ => "map"

/-! ## Character / digit helpers and the external std parsers

The integer and float parsers of the Rust standard library are external to
the repository; they are modelled here after their documented grammar:
`parse::<iN>/<uN>` accepts an optional sign followed by one or more ASCII
digits and range-checks the result, `parse::<f64>` accepts the usual
decimal/scientific grammar plus the case-insensitive special literals
`inf`, `infinity`, `nan`, with overflow to infinity. Finite results are
kept as exact rationals. -/

def charVal (c : Char) : Nat := c.toNat - 48

def digitChar (d : Nat) : Char := Char.ofNat (48 + d)

/-- Value of a most-significant-first digit string. -/
def digitsToNat (l : List Char) : Nat :=
  l.foldl (fun acc c => 10 * acc + charVal c) 0

/-- Decimal digits of `n`, least significant first (fuel-based so the
kernel can evaluate it). -/
def natDigitsRevAux : Nat → Nat → List Char
  | 0, _ => []
  | fuel + 1, n =>
    if n < 10 then [digitChar n]
    else digitChar (n % 10) :: natDigitsRevAux fuel (n / 10)

def natDigitsRev (n : Nat) : List Char := natDigitsRevAux (n + 1) n

/-- Rust `u64::to_string` / `Display for u64`. -/
def natDecStr (n : Nat) : String := ⟨(natDigitsRev n).reverse⟩

/-- Rust `i64::to_string` / `Display for i64`. -/
def intDecStr (x : Int) : String :=
  if x < 0 then ⟨'-' :: (natDigitsRev x.natAbs).reverse⟩
  else ⟨(natDigitsRev x.natAbs).reverse⟩

def i32MinI : Int := -(2 ^ 31)
def i32MaxI : Int := 2 ^ 31 - 1
def i64MinI : Int := -(2 ^ 63)
def i64MaxI : Int := 2 ^ 63 - 1
def u64MaxN : Nat := 2 ^ 64 - 1

/-- Shared sign/digits scanning for the std integer parsers: optional
`+`/`-`, then one or more ASCII digits. Returns the sign and magnitude. -/
def parseSignDigits (l : List Char) : Option (Bool × Nat) :=
  match l with
  | [] => none
  | c :: t =>
    if c = '-' then
      if t ≠ [] ∧ t.all Char.isDigit then some (true, digitsToNat t) else none
    else if c = '+' then
      if t ≠ [] ∧ t.all Char.isDigit then some (false, digitsToNat t) else none
    else if (c :: t).all Char.isDigit then some (false, digitsToNat (c :: t))
    else none

/-- Model of Rust `str::parse::<i64>`. -/
def parseI64 (s : String) : Option Int :=
  match parseSignDigits s.data with
  | none => none
  | some (neg, d) =>
    let v : Int := if neg then -(d : Int) else (d : Int)
    if i64MinI ≤ v ∧ v ≤ i64MaxI then some v else none

/-- Model of Rust `str::parse::<i32>`. -/
def parseI32 (s : String) : Option Int :=
  match parseSignDigits s.data with
  | none => none
  | some (neg, d) =>
    let v : Int := if neg then -(d : Int) else (d : Int)
    if i32MinI ≤ v ∧ v ≤ i32MaxI then some v else none

/-- Model of Rust `str::parse::<u64>` (a leading `-` is rejected). -/
def parseU64 (s : String) : Option Nat :=
  if s.data.head? = some '-' then none
  else
    match parseSignDigits s.data with
    | none => none
    | some (_, d) => if d ≤ u64MaxN then some d else none

/-- Mantissa of the std float grammar:
`Digit+ | Digit+ . Digit* | Digit* . Digit+`, optionally followed by an
exponent `e|E Sign? Digit+`. Returns the exact rational value. -/
def parseExpPart (m : QR) (l : List Char) : Option QR :=
  let p : Bool × List Char :=
    match l with
    | '+' :: t => (false, t)
    | '-' :: t => (true, t)
    | t => (false, t)
  if p.2 ≠ [] ∧ p.2.all Char.isDigit then
    let e := digitsToNat p.2
    some (if p.1 then qrDivPow10 m e else qrMulPow10 m e)
  else none

def fracVal (ip fp : List Char) : QR :=
  qrAdd (qrOfNat (digitsToNat ip)) ⟨(digitsToNat fp : Int), 10 ^ fp.length⟩

def parseDecMantissa (l : List Char) : Option QR :=
  let ip := l.takeWhile Char.isDigit
  let r1 := l.dropWhile Char.isDigit
  match r1 with
  | [] => if ip = [] then none else some (fracVal ip [])
  | '.' :: r2 =>
    let fp := r2.takeWhile Char.isDigit
    let r3 := r2.dropWhile Char.isDigit
    if ip = [] ∧ fp = [] then none
    else
      match r3 with
      | [] => some (fracVal ip fp)
      | 'e' :: r4 => parseExpPart (fracVal ip fp) r4
      | 'E' :: r4 => parseExpPart (fracVal ip fp) r4
      | _ => none
  | 'e' :: r2 => if ip = [] then none else parseExpPart (fracVal ip []) r2
  | 'E' :: r2 => if ip = [] then none else parseExpPart (fracVal ip []) r2
  | _ => none

/-- Model of Rust `str::parse::<f64>`: optional sign, then the special
literals (case-insensitive) or a decimal mantissa; finite values beyond the
largest `f64` overflow to the infinities. -/
def parseF64 (s : String) : Option F64 :=
  let p : Bool × List Char :=
    match s.data with
    | '+' :: t => (false, t)
    | '-' :: t => (true, t)
    | t => (false, t)
  let low := p.2.map Char.toLower
  if low = ['i', 'n', 'f'] ∨ low = ['i', 'n', 'f', 'i', 'n', 'i', 't', 'y'] then
    some (if p.1 then .neginf else .inf)
  else if low = ['n', 'a', 'n'] then some .nan
  else
    match parseDecMantissa p.2 with
    | none => none
    | some q =>
      let v := if p.1 then qrNeg q else q
      if qrLt maxF64 v then some .inf
      else if qrLt v (qrNeg maxF64) then some .neginf
      else some (.finite v)

/-- Rust `value.contains('c')` for a char pattern. -/
def containsChar (s : String) (c : Char) : Bool := s.data.contains c

/-- Rust `value.ends_with(".0")`. -/
def endsDotZero (s : String) : Bool :=
  match s.data.reverse with
  | '0' :: '.' :: _ => true
  | _ => false

/-! ## f64 codec (`mod f64`) -/

/-- `f64::F64Visitor::visit_str`. -/
def f64VisitStr (s : String) : Except Err F64 :=
  if s = "NaN" then .ok .nan
  else if s = "Infinity" then .ok .inf
  else if s = "-Infinity" then .ok .neginf
  else
    match parseF64 s with
    | some x => .ok x
    | none => .error (.custom "invalid float literal")

/-- `f64::F64Serializer::serialize`: the three non-finite values are
emitted as JSON strings, finite values as native JSON numbers. -/
def serializeF64 : F64 → Json
  | .nan => .str "NaN"
  | .neginf => .str "-Infinity"
  | .inf => .str "Infinity"
  | .finite q => .numF (.finite q)

/-! ## Empty message codec (`mod empty`) -/

/-- `empty::EmptyVisitor`: only `visit_map` is implemented; it requests one
entry and fails if the mapping has any. Other token kinds hit serde's
default `invalid_type` error. -/
def decodeEmpty : Json → Except Err Unit
  | .obj [] => .ok ()
  | .obj (_ :: _) => .error (.custom "this is a message, not empty")
  | j => .error (.invalidType (jsonKindName j) "a valid empty object")

/-- `empty::serialize`: emits an empty mapping. -/
def serializeEmpty : Json := .obj []

/-! ## i32 codec (`mod i32`) -/

/-- `i32::I32Visitor::visit_f64`: the float must be round (within
`f64::EPSILON` of its truncation) and inside `[i32::MIN as f64,
i32::MAX as f64]` (both constants exact); the accepted value is converted
with a saturating, truncating `as` cast. NaN compares false with
everything, so it slips past the checks and casts to 0. -/
def i32VisitF64 : F64 → Except Err Int
  | .finite q =>
    if qrLt f64Epsilon (qrAbs (qrSub (qrOfInt (qrTrunc q)) q))
        || qrLt ⟨i32MaxI, 1⟩ q || qrLt q ⟨i32MinI, 1⟩ then
      .error (.invalidType "floating point value" "a valid i32")
    else .ok (max i32MinI (min i32MaxI (qrTrunc q)))
  | .nan => .ok 0
  | .inf => .error (.invalidType "floating point value" "a valid i32")
  | .neginf => .error (.invalidType "floating point value" "a valid i32")

/-- `i32::I32Visitor::visit_str`: parse as float first when the string has
scientific notation or ends in `.0`, otherwise as an exact integer. -/
def i32VisitStr (s : String) : Except Err Int :=
  if containsChar s 'e' || containsChar s 'E' || endsDotZero s then
    match parseF64 s with
    | none => .error (.custom "invalid float literal")
    | some x => i32VisitF64 x
  else
    match parseI32 s with
    | some v => .ok v
    | none => .error (.custom "invalid integer literal")

/-- `i32::deserialize` = `deserialize_any(I32Visitor)` over one token. -/
def decodeI32 : Json → Except Err Int
  | .numI n =>
    if i32MinI ≤ n ∧ n ≤ i32MaxI then .ok n
    else .error (.custom "out of range integral type conversion attempted")
  | .numU n =>
    if (n : Int) ≤ i32MaxI then .ok (n : Int)
    else .error (.custom "out of range integral type conversion attempted")
  | .numF x => i32VisitF64 x
  | .str s => i32VisitStr s
  | .null => .ok 0
  | j => .error (.invalidType (jsonKindName j) "a valid i32")

/-! ## i64 codec (`mod i64`) -/

/-- `i64::MAX as f64` rounds up to 2^63; `i64::MIN as f64` is exact. -/
def i64MaxAsF64 : QR := ⟨2 ^ 63, 1⟩
def i64MinAsF64 : QR := ⟨-(2 ^ 63), 1⟩

/-- `i64::I64Visitor::visit_f64`. -/
def i64VisitF64 : F64 → Except Err Int
  | .finite q =>
    if qrLt f64Epsilon (qrAbs (qrSub (qrOfInt (qrTrunc q)) q))
        || qrLt i64MaxAsF64 q || qrLt q i64MinAsF64 then
      .error (.invalidType "floating point value" "a valid i64")
    else .ok (max i64MinI (min i64MaxI (qrTrunc q)))
  | .nan => .ok 0
  | .inf => .error (.invalidType "floating point value" "a valid i64")
  | .neginf => .error (.invalidType "floating point value" "a valid i64")

/-- `i64::I64Visitor::visit_str`. -/
def i64VisitStr (s : String) : Except Err Int :=
  if containsChar s 'e' || containsChar s 'E' || endsDotZero s then
    match parseF64 s with
    | none => .error (.custom "invalid float literal")
    | some x => i64VisitF64 x
  else
    match parseI64 s with
    | some v => .ok v
    | none => .error (.custom "invalid integer literal")

/-- `i64::deserialize` over one token (`visit_i64` accepts the value
as-is; `visit_u64` range-checks with `i64::try_from`). -/
def decodeI64 : Json → Except Err Int
  | .numI n => .ok n
  | .numU n =>
    if (n : Int) ≤ i64MaxI then .ok (n : Int)
    else .error (.custom "out of range integral type conversion attempted")
  | .numF x => i64VisitF64 x
  | .str s => i64VisitStr s
  | .null => .ok 0
  | j => .error (.invalidType (jsonKindName j) "a valid i64")

/-- `i64::I64Serializer::serialize`: always a quoted decimal string. -/
def serializeI64 (x : Int) : Json := .str (intDecStr x)

/-! ## u64 codec (`mod u64`) -/

/-- `u64::MAX as f64` rounds up to 2^64. -/
def u64MaxAsF64 : QR := ⟨2 ^ 64, 1⟩

/-- `u64::U64Visitor::visit_f64`: rejects non-round values, negatives and
values above `u64::MAX as f64`. -/
def u64VisitF64 : F64 → Except Err Int
  | .finite q =>
    if qrLt f64Epsilon (qrAbs (qrSub (qrOfInt (qrTrunc q)) q))
        || qrLt q ⟨0, 1⟩ || qrLt u64MaxAsF64 q then
      .error (.invalidType "floating point value" "a valid u64")
    else .ok (max 0 (min (u64MaxN : Int) (qrTrunc q)))
  | .nan => .ok 0
  | .inf => .error (.invalidType "floating point value" "a valid u64")
  | .neginf => .error (.invalidType "floating point value" "a valid u64")

/-- `u64::U64Visitor::visit_str`. -/
def u64VisitStr (s : String) : Except Err Int :=
  if containsChar s 'e' || containsChar s 'E' || endsDotZero s then
    match parseF64 s with
    | none => .error (.custom "invalid float literal")
    | some x => u64VisitF64 x
  else
    match parseU64 s with
    | some v => .ok (v : Int)
    | none => .error (.custom "invalid integer literal")

/-- `u64::deserialize` over one token. The visitor implements no
`visit_i64`, so a negative JSON integer hits serde's default
`invalid_type` error. -/
def decodeU64 : Json → Except Err Int
  | .numU n => .ok (n : Int)
  | .numF x => u64VisitF64 x
  | .str s => u64VisitStr s
  | .null => .ok 0
  | j => .error (.invalidType (jsonKindName j) "a valid u64")

/-- `u64::U64Serializer::serialize`: always a quoted decimal string. -/
def serializeU64 (n : Nat) : Json := .str (natDecStr n)

/-- The canonical-form regular expression of the spec, `^-?[0-9]+$`. -/
def matchesIntRegex (s : String) : Bool :=
  match s.data with
  | [] => false
  | c :: t =>
    if c = '-' then !t.isEmpty && t.all Char.isDigit
    else (c :: t).all Char.isDigit

/-- Value of a least-significant-first digit list (proof helper for the
decimal printer/parser roundtrip). -/
def valRev : List Char → Nat
  | [] => 0
  | c :: t => charVal c + 10 * valRev t

/-! ## Enum codec (`mod enum_serde`, `mod enum_opt`)

The Rust code is generic over a type `T` with `FromStr`, `ToString`,
`Into<i32>`, `TryFrom<i32>` and `Default`; the embedding abstracts those
capabilities into a descriptor whose functions already compose the
`Into<i32>` conversion: `fromStr s` is `T::from_str(s).map(Into::into)`,
`tryFrom v` is `T::try_from(v).map(Into::into)` (defined for `v` in i32
range), and `dfault` is `T::default().into()`. -/

structure EnumDesc where
  fromStr : String → Option Int
  tryFrom : Int → Option Int
  dfault : Int

/-- The wrapping `value as i32` cast applied by `visit_i64`. -/
def wrap32 (n : Int) : Int := (n + 2 ^ 31) % 2 ^ 32 - 2 ^ 31

/-- The wrapping `value as i64` cast applied by `visit_u64`. -/
def wrapU64I64 (n : Nat) : Int := ((n : Int) + 2 ^ 63) % 2 ^ 64 - 2 ^ 63

/-- The saturating `value as i64` cast of a float (NaN casts to 0). -/
def f64ToI64Sat : F64 → Int
  | .finite q => max i64MinI (min i64MaxI (qrTrunc q))
  | .nan => 0
  | .inf => i64MaxI
  | .neginf => i64MinI

def enumExpecting : String := "a valid string or integer representation of an enum"

/-- `enum_serde::EnumVisitor::visit_str`: unknown names are a hard decode
error. -/
def enumVisitStr (d : EnumDesc) (s : String) : Except Err Int :=
  match d.fromStr s with
  | some v => .ok v
  | none => .error (.invalidValue s enumExpecting)

/-- `enum_serde::EnumVisitor::visit_i64`: `T::try_from(value as i32)`,
falling back to `T::default()` when the (wrapped) ordinal is unknown. -/
def enumVisitI64 (d : EnumDesc) (n : Int) : Except Err Int :=
  match d.tryFrom (wrap32 n) with
  | some v => .ok v
  | none => .ok d.dfault

/-- `enum_serde::EnumVisitor::visit_u64` = `visit_i64(value as i64)`. -/
def enumVisitU64 (d : EnumDesc) (n : Nat) : Except Err Int :=
  enumVisitI64 d (wrapU64I64 n)

/-- `enum_serde::EnumVisitor::visit_f64` = `visit_i64(value as i64)`. -/
def enumVisitF64 (d : EnumDesc) (x : F64) : Except Err Int :=
  enumVisitI64 d (f64ToI64Sat x)

/-- `enum_serde::EnumVisitor::visit_unit` returns
`Self::Value::default()`, which is `i32::default()` = 0 (not
`T::default()`). -/
def enumVisitUnit (_ : EnumDesc) : Except Err Int := .ok 0

/-- `enum_serde::deserialize` over one token. -/
def decodeEnum (d : EnumDesc) : Json → Except Err Int
  | .str s => enumVisitStr d s
  | .numI n => enumVisitI64 d n
  | .numU n => enumVisitU64 d n
  | .numF x => enumVisitF64 d x
  | .null => enumVisitUnit d
  | j => .error (.invalidType (jsonKindName j) enumExpecting)

/-- `enum_opt::EnumVisitor::visit_i64`, same fallback wrapped in `Some`. -/
def enumOptVisitI64 (d : EnumDesc) (n : Int) : Except Err (Option Int) :=
  match d.tryFrom (wrap32 n) with
  | some v => .ok (some v)
  | none => .ok (some d.dfault)

/-- Concrete enum instance: variants FIVE = 5 and SIX = 6, `T::default()`
being FIVE (a proto2-style enum whose first variant is nonzero — the trait
bounds of the Rust code allow such a type). -/
def enumDescFive : EnumDesc where
  fromStr := fun s => if s = "FIVE" then some 5 else if s = "SIX" then some 6 else none
  tryFrom := fun v => if v = 5 ∨ v = 6 then some v else none
  dfault := 5

/-- Concrete enum instance with a variant at ordinal 0 and default 5. -/
def enumDescZeroKnown : EnumDesc where
  fromStr := fun s => if s = "ZERO" then some 0 else none
  tryFrom := fun v => if v = 0 then some 0 else none
  dfault := 5

instance {e a : Type} [DecidableEq e] [DecidableEq a] : DecidableEq (Except e a) := fun x y =>
  match x, y with
  | .ok u, .ok v =>
    if h : u = v then .isTrue (by rw [h]) else .isFalse (fun he => h (Except.ok.inj he))
  | .ok _, .error _ => .isFalse (fun he => Except.noConfusion he)
  | .error _, .ok _ => .isFalse (fun he => Except.noConfusion he)
  | .error u, .error v =>
    if h : u = v then .isTrue (by rw [h]) else .isFalse (fun he => h (Except.error.inj he))

/-! ## Duration codec (`impl Deserialize for Duration`) -/

/-- `prost_types::Duration` (defined in the crate root, outside `src/`):
signed seconds and nanos. -/
structure Duration where
  seconds : Int
  nanos : Int
deriving DecidableEq, Repr

/-- `std::time::Duration`: whole seconds and subsecond nanos in
`[0, 10^9)`. -/
structure StdDuration where
  secs : Nat
  subsecNanos : Nat
deriving DecidableEq, Repr

def fromSecsPanicMsg : String := "can not convert float seconds to Duration"

/-- Model of `std::time::Duration::from_secs_f64`, which panics (it does
not return a `Result`) when the input is NaN, infinite, negative, or at
least 2^64 seconds; otherwise it rounds to the nearest nanosecond, ties to
even. -/
def fromSecsF64 : F64 → Outcome StdDuration
  | .nan => .panics fromSecsPanicMsg
  | .inf => .panics fromSecsPanicMsg
  | .neginf => .panics fromSecsPanicMsg
  | .finite q =>
    if q.num < 0 then .panics fromSecsPanicMsg
    else
      let t := roundHalfEvenNat (q.num.toNat * 10 ^ 9) q.den
      if 2 ^ 64 * 10 ^ 9 ≤ t then .panics fromSecsPanicMsg
      else .ok ⟨t / 10 ^ 9, t % 10 ^ 9⟩

/-- Modelled from the spec: the external duration conversion
(`TryFrom<std::time::Duration> for prost_types::Duration`, which lives in
the crate root outside `src/`) turns the non-negative `(secs, nanos)` pair
into the message type, failing when the seconds overflow `i64`. -/
def tryIntoDuration (d : StdDuration) : Option Duration :=
  if (d.secs : Int) ≤ i64MaxI then some ⟨(d.secs : Int), (d.subsecNanos : Int)⟩
  else none

/-- Rust `value.strip_suffix('s')`. -/
def stripSuffixS (s : String) : Option String :=
  match s.data.reverse with
  | 's' :: t => some ⟨t.reverse⟩
  | _ => none

/-- `DurationVisitor::visit_str`: strip the trailing `s`, parse the rest
as a float; a negative value is negated, converted, and both resulting
fields are re-negated; a non-negative value is converted directly. The
conversion `from_secs_f64` can panic, and that outcome is propagated as
`Outcome.panics`. -/
def durationVisitStr (s : String) : Outcome Duration :=
  match stripSuffixS s with
  | none => .error (.custom ("invalid duration: " ++ s))
  | some v =>
    match parseF64 v with
    | none => .error (.custom "invalid float literal")
    | some x =>
      if x.isSignNegative then
        match fromSecsF64 x.neg with
        | .panics m => .panics m
        | .error e => .error e
        | .ok sd =>
          match tryIntoDuration sd with
          | none => .error (.custom "duration out of range")
          | some d => .ok ⟨-d.seconds, -d.nanos⟩
      else
        match fromSecsF64 x with
        | .panics m => .panics m
        | .error e => .error e
        | .ok sd =>
          match tryIntoDuration sd with
          | none => .error (.custom "duration out of range")
          | some d => .ok d

/-! ## Dynamic Value (`impl Serialize for Value`, `ValueVisitor`)

The `Value`/`Kind`/`Struct`/`ListValue` types are defined in the crate
outside `src/`; they are modelled from the spec data model (§3): a message
wrapping an optional tagged union, whose Struct arm owns an ordered-key
mapping (a `BTreeMap<String, Value>` in the code) and whose List arm owns
a sequence. -/

mutual
inductive Value where
  | mk (kind : Option Kind)
inductive Kind where
  | nullValue (v : Int)
  | numberValue (v : F64)
  | stringValue (s : String)
  | boolValue (b : Bool)
  | structValue (fields : List (String × Value))
  | listValue (values : List Value)
end

/-- Byte-lexicographic order on strings as used by Rust `Ord for String`
(UTF-8 byte order coincides with scalar-value order, compared here via
`Char.toNat`). -/
def strLtLB : List Char → List Char → Bool
  | [], [] => false
  | [], _ :: _ => true
  | _ :: _, [] => false
  | x :: xs, y :: ys =>
    if x.toNat < y.toNat then true
    else if y.toNat < x.toNat then false
    else strLtLB xs ys

def strLtB (a b : String) : Bool := strLtLB a.data b.data

/-- `BTreeMap::insert` on its sorted entry list: keeps keys strictly
ascending, replacing the value of an existing key. -/
def insertSorted (l : List (String × Value)) (k : String) (v : Value) :
    List (String × Value) :=
  match l with
  | [] => [(k, v)]
  | (kh, vh) :: t =>
    if strLtB k kh then (k, v) :: (kh, vh) :: t
    else if k = kh then (k, v) :: t
    else (kh, vh) :: insertSorted t k v

/-- The `while let Some((key, value)) = visitor.next_entry()?` insertion
loop of `ValueVisitor::visit_map`. -/
def insertAll (acc : List (String × Value)) : List (String × Value) → List (String × Value)
  | [] => acc
  | (k, v) :: t => insertAll (insertSorted acc k v) t

/-- The `value as f64` cast of an i64/u64 token (`ValueVisitor::visit_i64`
and `visit_u64` forward to `visit_f64`): exact for magnitudes up to 2^53,
otherwise rounded to 53 significant bits, ties to even. -/
def castIntF64 (n : Int) : QR :=
  if n.natAbs ≤ 2 ^ 53 then ⟨n, 1⟩
  else
    let a := n.natAbs
    let e := a.log2 - 52
    let m := roundHalfEvenNat a (2 ^ e)
    ⟨if n < 0 then -(((m * 2 ^ e : Nat) : Int)) else ((m * 2 ^ e : Nat) : Int), 1⟩

/-! `ValueVisitor` dispatch over a token tree (`Deserialize for Value` is
total: every token kind has a handler). Sequence elements and mapping
entries are decoded recursively in order; mapping entries are accumulated
through `BTreeMap::insert`. -/
mutual
def decodeValue : Json → Value
  | .null => .mk (some (.nullValue 0))
  | .bool b => .mk (some (.boolValue b))
  | .numI n => .mk (some (.numberValue (.finite (castIntF64 n))))
  | .numU n => .mk (some (.numberValue (.finite (castIntF64 (n : Int)))))
  | .numF x => .mk (some (.numberValue x))
  | .str s => .mk (some (.stringValue s))
  | .arr items => .mk (some (.listValue (decodeList items)))
  | .obj entries => .mk (some (.structValue (insertAll [] (decodeEntries entries))))
def decodeList : List Json → List Value
  | [] => []
  | j :: t => decodeValue j :: decodeList t
def decodeEntries : List (String × Json) → List (String × Value)
  | [] => []
  | (k, j) :: t => (k, decodeValue j) :: decodeEntries t
end

def isOkE {α : Type} : Except Err α → Bool
  | .ok _ => true
  | .error _ => false

/-! `impl Serialize for Value`: a union with no tag set is an error; a
non-finite number is an error; otherwise dispatch on the tag, recursing
through Struct fields and List elements. -/
mutual
def serializeValue : Value → Except Err Json
  | .mk none => .error (.custom "invalid value: variant must be set")
  | .mk (some k) => serializeKind k
def serializeKind : Kind → Except Err Json
  | .nullValue _ => .ok .null
  | .numberValue x =>
    if x.isFinite then .ok (.numF x)
    else .error (.custom "number values must not be NaN or infinite")
  | .stringValue s => .ok (.str s)
  | .boolValue b => .ok (.bool b)
  | .structValue fields =>
    match serializeFields fields with
    | .ok l => .ok (.obj l)
    | .error e => .error e
  | .listValue values =>
    match serializeList values with
    | .ok l => .ok (.arr l)
    | .error e => .error e
def serializeFields : List (String × Value) → Except Err (List (String × Json))
  | [] => .ok []
  | (k, v) :: t =>
    match serializeValue v with
    | .error e => .error e
    | .ok j =>
      match serializeFields t with
      | .error e => .error e
      | .ok l => .ok ((k, j) :: l)
def serializeList : List Value → Except Err (List Json)
  | [] => .ok []
  | v :: t =>
    match serializeValue v with
    | .error e => .error e
    | .ok j =>
      match serializeList t with
      | .error e => .error e
      | .ok l => .ok (j :: l)
end

/-! A Value is valid for encoding when every node has its tag set and
every number payload is finite. -/
mutual
def validValue : Value → Bool
  | .mk none => false
  | .mk (some k) => validKind k
def validKind : Kind → Bool
  | .numberValue x => x.isFinite
  | .structValue fields => validFields fields
  | .listValue values => validList values
  | _ => true
def validFields : List (String × Value) → Bool
  | [] => true
  | (_, v) :: t => validValue v && validFields t
def validList : List Value → Bool
  | [] => true
  | v :: t => validValue v && validList t
end

/-! Structural size used for the strong induction over `Value`. -/
mutual
def sizeV : Value → Nat
  | .mk none => 1
  | .mk (some k) => 1 + sizeK k
def sizeK : Kind → Nat
  | .structValue fields => 1 + sizeF fields
  | .listValue values => 1 + sizeL values
  | _ => 1
def sizeF : List (String × Value) → Nat
  | [] => 0
  | (_, v) :: t => 1 + sizeV v + sizeF t
def sizeL : List Value → Nat
  | [] => 0
  | v :: t => 1 + sizeV v + sizeL t
end

/-! ## Claim theorems (first group) -/

theorem maxF64_num_eq : maxF64.num = (2 ^ 53 - 1) * 2 ^ 971 := by norm_num [maxF64]

theorem charVal_digitChar {d : Nat} (h : d < 10) : charVal (digitChar d) = d := by
  interval_cases d <;> decide

theorem isDigit_digitChar {d : Nat} (h : d < 10) : (digitChar d).isDigit = true := by
  interval_cases d <;> decide

theorem isDigit_ne (c x : Char) (h : c.isDigit = true) (hx : x.isDigit = false) : c ≠ x := by
  intro he
  rw [he, hx] at h
  cases h

theorem natDigitsRevAux_ne_nil {fuel n : Nat} (h : n < fuel) :
    natDigitsRevAux fuel n ≠ [] := by
  cases fuel with
  | zero => omega
  | succ f =>
    unfold natDigitsRevAux
    split <;> simp

theorem natDigitsRevAux_digits {fuel : Nat} :
    ∀ {n : Nat}, n < fuel → ∀ c ∈ natDigitsRevAux fuel n, c.isDigit = true := by
  induction fuel with
  | zero => intro n h; omega
  | succ f ih =>
    intro n h c hc
    unfold natDigitsRevAux at hc
    split at hc
    · rename_i h10
      rcases List.mem_singleton.mp hc with rfl
      exact isDigit_digitChar h10
    · rename_i h10
      rcases List.mem_cons.mp hc with rfl | hc
      · exact isDigit_digitChar (Nat.mod_lt _ (by omega))
      · refine ih ?_ c hc
        have := Nat.div_lt_self (by omega : 0 < n) (by omega : 1 < 10)
        omega

theorem valRev_natDigitsRevAux {fuel : Nat} :
    ∀ {n : Nat}, n < fuel → valRev (natDigitsRevAux fuel n) = n := by
  induction fuel with
  | zero => intro n h; omega
  | succ f ih =>
    intro n h
    unfold natDigitsRevAux
    split
    · rename_i h10
      simp only [valRev]
      rw [charVal_digitChar h10]
      omega
    · rename_i h10
      have hdlt : n / 10 < f := by
        have := Nat.div_lt_self (by omega : 0 < n) (by omega : 1 < 10)
        omega
      simp only [valRev]
      rw [charVal_digitChar (Nat.mod_lt _ (by omega)), ih hdlt]
      omega

theorem digitsToNat_reverse (l : List Char) : digitsToNat l.reverse = valRev l := by
  induction l with
  | nil => rfl
  | cons c t ih =>
    simp only [List.reverse_cons, digitsToNat, List.foldl_append, List.foldl_cons,
      List.foldl_nil, valRev]
    simp only [digitsToNat] at ih
    omega

theorem natDigitsRev_ne_nil (n : Nat) : natDigitsRev n ≠ [] :=
  natDigitsRevAux_ne_nil (Nat.lt_succ_self n)

theorem natDigitsRev_digits (n : Nat) : ∀ c ∈ natDigitsRev n, c.isDigit = true :=
  natDigitsRevAux_digits (Nat.lt_succ_self n)

theorem digitsToNat_natDigitsRev (n : Nat) : digitsToNat (natDigitsRev n).reverse = n := by
  rw [digitsToNat_reverse]
  exact valRev_natDigitsRevAux (Nat.lt_succ_self n)

theorem parseSignDigits_digitsOnly (l : List Char) (hne : l ≠ [])
    (hd : ∀ c ∈ l, c.isDigit = true) :
    parseSignDigits l = some (false, digitsToNat l) := by
  cases l with
  | nil => exact absurd rfl hne
  | cons c t =>
    have hc : c.isDigit = true := hd c (List.mem_cons_self c t)
    have hcm : c ≠ '-' := isDigit_ne c '-' hc (by decide)
    have hcp : c ≠ '+' := isDigit_ne c '+' hc (by decide)
    unfold parseSignDigits
    dsimp only
    rw [if_neg hcm, if_neg hcp, if_pos (List.all_eq_true.mpr hd)]

theorem parseSignDigits_negDigits (t : List Char) (hne : t ≠ [])
    (hd : ∀ c ∈ t, c.isDigit = true) :
    parseSignDigits ('-' :: t) = some (true, digitsToNat t) := by
  unfold parseSignDigits
  dsimp only
  rw [if_pos rfl, if_pos ⟨hne, List.all_eq_true.mpr hd⟩]

theorem digitsRev_head_ne_minus (m : Nat) :
    (natDigitsRev m).reverse.head? ≠ some '-' := by
  cases hrev : (natDigitsRev m).reverse with
  | nil => simp
  | cons c t =>
    have hc : c.isDigit = true := by
      refine natDigitsRev_digits m c (List.mem_reverse.mp ?_)
      rw [hrev]
      exact List.mem_cons_self c t
    simp only [List.head?_cons, ne_eq, Option.some.injEq]
    exact isDigit_ne c '-' hc (by decide)

theorem parseU64_natDecStr {n : Nat} (h : n ≤ u64MaxN) :
    parseU64 (natDecStr n) = some n := by
  have hdata : (natDecStr n).data = (natDigitsRev n).reverse := rfl
  have hne : (natDigitsRev n).reverse ≠ [] := by
    simp [List.reverse_eq_nil_iff, natDigitsRev_ne_nil n]
  have hd : ∀ c ∈ (natDigitsRev n).reverse, c.isDigit = true := by
    intro c hc
    exact natDigitsRev_digits n c (List.mem_reverse.mp hc)
  unfold parseU64
  rw [hdata, if_neg (digitsRev_head_ne_minus n), parseSignDigits_digitsOnly _ hne hd,
    digitsToNat_natDigitsRev n]
  exact if_pos h

theorem parseI64_intDecStr {x : Int} (hlo : i64MinI ≤ x) (hhi : x ≤ i64MaxI) :
    parseI64 (intDecStr x) = some x := by
  have hlo' : -(2 ^ 63) ≤ x := hlo
  have hhi' : x ≤ 2 ^ 63 - 1 := hhi
  by_cases hx : x < 0
  · have hdata : (intDecStr x).data = '-' :: (natDigitsRev x.natAbs).reverse := by
      rw [intDecStr, if_pos hx]
    have hne : (natDigitsRev x.natAbs).reverse ≠ [] := by
      simp [List.reverse_eq_nil_iff, natDigitsRev_ne_nil]
    have hd : ∀ c ∈ (natDigitsRev x.natAbs).reverse, c.isDigit = true := by
      intro c hc
      exact natDigitsRev_digits _ c (List.mem_reverse.mp hc)
    unfold parseI64
    rw [hdata, parseSignDigits_negDigits _ hne hd, digitsToNat_natDigitsRev]
    dsimp only
    split
    · have hcond : i64MinI ≤ -((x.natAbs : Int)) ∧ -((x.natAbs : Int)) ≤ i64MaxI := by
        simp only [i64MinI, i64MaxI]
        constructor <;> omega
      rw [if_pos hcond]
      simp only [Option.some.injEq]
      omega
    · rename_i hc
      exact absurd rfl hc
  · have hdata : (intDecStr x).data = (natDigitsRev x.natAbs).reverse := by
      rw [intDecStr, if_neg hx]
    have hne : (natDigitsRev x.natAbs).reverse ≠ [] := by
      simp [List.reverse_eq_nil_iff, natDigitsRev_ne_nil]
    have hd : ∀ c ∈ (natDigitsRev x.natAbs).reverse, c.isDigit = true := by
      intro c hc
      exact natDigitsRev_digits _ c (List.mem_reverse.mp hc)
    unfold parseI64
    rw [hdata, parseSignDigits_digitsOnly _ hne hd, digitsToNat_natDigitsRev]
    dsimp only
    split
    · rename_i hc
      exact absurd hc (by simp)
    · have hcond : i64MinI ≤ ((x.natAbs : Int)) ∧ ((x.natAbs : Int)) ≤ i64MaxI := by
        simp only [i64MinI, i64MaxI]
        constructor <;> omega
      rw [if_pos hcond]
      simp only [Option.some.injEq]
      omega

/-- C9: decoding an empty JSON mapping for the empty-message codec
succeeds; decoding a mapping with at least one entry fails with the
structural error "this is a message, not empty"; encoding emits an empty
mapping. -/
theorem empty_decode_strict_encode_empty :
    decodeEmpty (Json.obj []) = .ok ()
    ∧ (∀ (k : String) (v : Json) (rest : List (String × Json)),
        decodeEmpty (Json.obj ((k, v) :: rest)) =
          .error (.custom "this is a message, not empty"))
    ∧ serializeEmpty = Json.obj [] := by
  exact ⟨rfl, fun _ _ _ => rfl, rfl⟩

/-- C10: f64 encoding emits the JSON string "NaN" for NaN, "Infinity" for
positive infinity, "-Infinity" for negative infinity, and a native JSON
number for every finite value; f64 string decoding maps "NaN", "Infinity"
and "-Infinity" to the corresponding special values. -/
theorem f64_special_values_encoding :
    serializeF64 .nan = Json.str "NaN"
    ∧ serializeF64 .inf = Json.str "Infinity"
    ∧ serializeF64 .neginf = Json.str "-Infinity"
    ∧ (∀ q : QR, serializeF64 (.finite q) = Json.numF (.finite q))
    ∧ f64VisitStr "-Infinity" = .ok .neginf
    ∧ f64VisitStr "NaN" = .ok .nan
    ∧ f64VisitStr "Infinity" = .ok .inf := by
  exact ⟨rfl, rfl, rfl, fun _ => rfl, rfl, rfl, rfl⟩

theorem intDecStr_chars {x : Int} :
    ∀ c ∈ (intDecStr x).data, c = '-' ∨ c.isDigit = true := by
  intro c hc
  by_cases hx : x < 0
  · rw [intDecStr, if_pos hx] at hc
    rcases List.mem_cons.mp hc with rfl | hc
    · exact Or.inl rfl
    · exact Or.inr (natDigitsRev_digits _ c (List.mem_reverse.mp hc))
  · rw [intDecStr, if_neg hx] at hc
    exact Or.inr (natDigitsRev_digits _ c (List.mem_reverse.mp hc))

theorem natDecStr_chars (n : Nat) : ∀ c ∈ (natDecStr n).data, c.isDigit = true := by
  intro c hc
  exact natDigitsRev_digits n c (List.mem_reverse.mp hc)

theorem noFloatPath_of_chars (s : String)
    (h : ∀ c ∈ s.data, c = '-' ∨ c.isDigit = true) :
    (containsChar s 'e' || containsChar s 'E' || endsDotZero s) = false := by
  have hnm : ∀ c : Char, c ≠ '-' → c.isDigit = false → c ∉ s.data := by
    intro c hcm hcd hmem
    rcases h c hmem with rfl | hd
    · exact hcm rfl
    · rw [hd] at hcd
      cases hcd
  have he : containsChar s 'e' = false := by
    simp only [containsChar]
    simp [hnm 'e' (by decide) (by decide)]
  have hE : containsChar s 'E' = false := by
    simp only [containsChar]
    simp [hnm 'E' (by decide) (by decide)]
  have hdz : endsDotZero s = false := by
    unfold endsDotZero
    split
    · rename_i heq
      exfalso
      have hdot : '.' ∈ s.data := by
        have : '.' ∈ s.data.reverse := by
          rw [heq]
          exact List.mem_cons.mpr (Or.inr (List.mem_cons_self _ _))
        exact List.mem_reverse.mp this
      exact hnm '.' (by decide) (by decide) hdot
    · rfl
  rw [he, hE, hdz]
  rfl

theorem matchesIntRegex_natDecStr (n : Nat) : matchesIntRegex (natDecStr n) = true := by
  have hdata : (natDecStr n).data = (natDigitsRev n).reverse := rfl
  unfold matchesIntRegex
  rw [hdata]
  cases hrev : (natDigitsRev n).reverse with
  | nil =>
    exfalso
    exact natDigitsRev_ne_nil n (by simpa [List.reverse_eq_nil_iff] using hrev)
  | cons c t =>
    dsimp only
    have hall : ∀ a ∈ c :: t, a.isDigit = true := by
      intro a ha
      refine natDigitsRev_digits n a (List.mem_reverse.mp ?_)
      rw [hrev]
      exact ha
    have hc : c.isDigit = true := hall c (List.mem_cons_self c t)
    rw [if_neg (isDigit_ne c '-' hc (by decide))]
    exact List.all_eq_true.mpr hall

theorem matchesIntRegex_intDecStr {x : Int} : matchesIntRegex (intDecStr x) = true := by
  by_cases hx : x < 0
  · have hdata : (intDecStr x).data = '-' :: (natDigitsRev x.natAbs).reverse := by
      rw [intDecStr, if_pos hx]
    unfold matchesIntRegex
    rw [hdata]
    dsimp only
    rw [if_pos rfl]
    have hne : ¬(natDigitsRev x.natAbs).reverse.isEmpty = true := by
      simp [List.isEmpty_iff, List.reverse_eq_nil_iff, natDigitsRev_ne_nil]
    have hall : (natDigitsRev x.natAbs).reverse.all Char.isDigit = true := by
      refine List.all_eq_true.mpr ?_
      intro a ha
      exact natDigitsRev_digits _ a (List.mem_reverse.mp ha)
    simp [hne, hall]
  · have hdata : (intDecStr x).data = (natDigitsRev x.natAbs).reverse := by
      rw [intDecStr, if_neg hx]
    have : matchesIntRegex (natDecStr x.natAbs) = true := matchesIntRegex_natDecStr x.natAbs
    unfold matchesIntRegex at this ⊢
    rw [hdata]
    exact this

theorem decodeI64_str_decStr {x : Int} (hlo : i64MinI ≤ x) (hhi : x ≤ i64MaxI) :
    decodeI64 (Json.str (intDecStr x)) = .ok x := by
  show i64VisitStr (intDecStr x) = .ok x
  unfold i64VisitStr
  rw [noFloatPath_of_chars _ intDecStr_chars]
  simp only [Bool.false_eq_true, if_false]
  rw [parseI64_intDecStr hlo hhi]

theorem decodeU64_str_decStr {n : Nat} (h : n ≤ u64MaxN) :
    decodeU64 (Json.str (natDecStr n)) = .ok (n : Int) := by
  show u64VisitStr (natDecStr n) = .ok (n : Int)
  unfold u64VisitStr
  rw [noFloatPath_of_chars _ (fun c hc => Or.inr (natDecStr_chars n c hc))]
  simp only [Bool.false_eq_true, if_false]
  rw [parseU64_natDecStr h]

/-- C3: encoding an i64 or u64 always produces a JSON string whose content
is the decimal representation matching `^-?[0-9]+$`; decoding the
JSON-number form and the quoted-decimal-string form of the same 64-bit
value yield equal results. -/
theorem i64_u64_canonical_string_form :
    (∀ x : Int, i64MinI ≤ x → x ≤ i64MaxI →
      serializeI64 x = Json.str (intDecStr x) ∧ matchesIntRegex (intDecStr x) = true)
    ∧ (∀ n : Nat, n ≤ u64MaxN →
      serializeU64 n = Json.str (natDecStr n) ∧ matchesIntRegex (natDecStr n) = true)
    ∧ (∀ x : Int, i64MinI ≤ x → x ≤ i64MaxI →
      decodeI64 (Json.numI x) = decodeI64 (Json.str (intDecStr x)))
    ∧ (∀ n : Nat, n ≤ u64MaxN →
      decodeU64 (Json.numU n) = decodeU64 (Json.str (natDecStr n))) := by
  refine ⟨fun x _ _ => ⟨rfl, matchesIntRegex_intDecStr⟩,
    fun n _ => ⟨rfl, matchesIntRegex_natDecStr n⟩, fun x hlo hhi => ?_, fun n h => ?_⟩
  · rw [decodeI64_str_decStr hlo hhi]
    rfl
  · rw [decodeU64_str_decStr h]
    rfl

theorem i64_u64_canonical_string_form_witness :
    matchesIntRegex (intDecStr (-42)) = true
    ∧ decodeI64 (Json.numI (-42)) = decodeI64 (Json.str (intDecStr (-42)))
    ∧ matchesIntRegex (natDecStr 7) = true
    ∧ decodeU64 (Json.numU 7) = decodeU64 (Json.str (natDecStr 7)) :=
  ⟨(i64_u64_canonical_string_form.1 (-42) (by decide) (by decide)).2,
   i64_u64_canonical_string_form.2.2.1 (-42) (by decide) (by decide),
   (i64_u64_canonical_string_form.2.1 7 (by decide)).2,
   i64_u64_canonical_string_form.2.2.2 7 (by decide)⟩

/-- C8: for an i32 field, decoding the JSON string "3.0" takes the float
path (the string ends in `.0`), passes the roundness and range checks and
yields 3; decoding the string "3.5" takes the exact-integer path (no
exponent, does not end in `.0`), where integer parsing rejects the
non-integral text, so decoding fails. -/
theorem i32_string_decimal_scenario :
    decodeI32 (Json.str "3.0") = .ok 3
    ∧ decodeI32 (Json.str "3.5") = .error (.custom "invalid integer literal") := by
  exact ⟨rfl, rfl⟩


theorem wrap32_wrap32 (n : Int) : wrap32 (wrap32 n) = wrap32 n := by
  unfold wrap32
  omega

theorem wrap32_wrapU64I64 (n : Nat) : wrap32 (wrapU64I64 n) = wrap32 n := by
  unfold wrap32 wrapU64I64
  omega

theorem wrap32_eq_self {n : Int} (hlo : i32MinI ≤ n) (hhi : n ≤ i32MaxI) :
    wrap32 n = n := by
  simp only [i32MinI, i32MaxI] at hlo hhi
  unfold wrap32
  omega

/-- C7: the enum visitors truncate the 64-bit numeric token to 32 bits
with a wrapping cast before the known-range check, so the decoded result
only depends on the token modulo 2^32; in particular 4294967296 = 2^32
decodes to the variant at ordinal 0 when one exists, not to the default
ordinal. -/
theorem enum_numeric_token_wraps_mod_2_32 :
    (∀ (d : EnumDesc) (n : Int), enumVisitI64 d n = enumVisitI64 d (wrap32 n))
    ∧ (∀ (d : EnumDesc) (n : Nat), enumVisitU64 d n = enumVisitI64 d (wrap32 n))
    ∧ (∀ (d : EnumDesc) (n : Int), enumOptVisitI64 d n = enumOptVisitI64 d (wrap32 n))
    ∧ (∀ (d : EnumDesc) (v : Int), d.tryFrom 0 = some v →
        enumVisitI64 d 4294967296 = .ok v) := by
  refine ⟨fun d n => ?_, fun d n => ?_, fun d n => ?_, fun d v h => ?_⟩
  · unfold enumVisitI64
    rw [wrap32_wrap32]
  · unfold enumVisitU64 enumVisitI64
    rw [wrap32_wrapU64I64, wrap32_wrap32]
  · unfold enumOptVisitI64
    rw [wrap32_wrap32]
  · unfold enumVisitI64
    have hw : wrap32 4294967296 = 0 := by decide
    rw [hw, h]

theorem enum_numeric_token_wraps_mod_2_32_witness :
    enumVisitI64 enumDescZeroKnown 4294967296 = .ok 0 :=
  enum_numeric_token_wraps_mod_2_32.2.2.2 enumDescZeroKnown 0 (by decide)

/-- C2 counterexample: `visit_unit` returns `Self::Value::default()`,
the `i32` zero, not `T::default().into()`; for the concrete enum whose
default ordinal is 5 the claim "decoding a null/unit token yields the
default ordinal" fails. -/
theorem enum_unit_default_counterexample :
    decodeEnum enumDescFive Json.null ≠ .ok enumDescFive.dfault := by
  decide

/-- C2 (amended): decoding an unrecognized enum name fails with a decode
error; decoding an i32-range JSON number whose ordinal is unknown succeeds
with the enum type's default ordinal; decoding a null/unit token yields
ordinal 0 (the i32 default), which coincides with the enum's default
ordinal only when that default is 0. -/
theorem enum_name_number_asymmetry :
    (∀ (d : EnumDesc) (s : String), d.fromStr s = none →
      decodeEnum d (Json.str s) = .error (.invalidValue s enumExpecting))
    ∧ (∀ (d : EnumDesc) (n : Int), i32MinI ≤ n → n ≤ i32MaxI → d.tryFrom n = none →
      decodeEnum d (Json.numI n) = .ok d.dfault)
    ∧ (∀ d : EnumDesc, decodeEnum d Json.null = .ok 0) := by
  refine ⟨fun d s h => ?_, fun d n hlo hhi h => ?_, fun d => rfl⟩
  · show enumVisitStr d s = _
    unfold enumVisitStr
    rw [h]
  · show enumVisitI64 d n = _
    unfold enumVisitI64
    rw [wrap32_eq_self hlo hhi, h]

theorem enum_name_number_asymmetry_witness :
    decodeEnum enumDescFive (Json.str "bogus") = .error (.invalidValue "bogus" enumExpecting)
    ∧ decodeEnum enumDescFive (Json.numI 99999) = .ok enumDescFive.dfault
    ∧ decodeEnum enumDescFive Json.null = .ok 0 :=
  ⟨enum_name_number_asymmetry.1 enumDescFive "bogus" (by decide),
   enum_name_number_asymmetry.2.1 enumDescFive 99999 (by decide) (by decide) (by decide),
   enum_name_number_asymmetry.2.2 enumDescFive⟩


theorem fromSecsF64_ok_nanos {x : F64} {sd : StdDuration}
    (h : fromSecsF64 x = .ok sd) : sd.subsecNanos < 10 ^ 9 := by
  unfold fromSecsF64 at h
  split at h
  · exact Outcome.noConfusion h
  · exact Outcome.noConfusion h
  · exact Outcome.noConfusion h
  · split at h
    · exact Outcome.noConfusion h
    · simp only [] at h
      split at h
      · exact Outcome.noConfusion h
      · cases h
        exact Nat.mod_lt _ (by norm_num)

theorem tryIntoDuration_some {sd : StdDuration} {d : Duration}
    (h : tryIntoDuration sd = some d) :
    d.seconds = (sd.secs : Int) ∧ d.nanos = (sd.subsecNanos : Int) := by
  unfold tryIntoDuration at h
  split at h
  · cases h
    exact ⟨rfl, rfl⟩
  · exact Option.noConfusion h

set_option maxRecDepth 8000 in
/-- C1: Duration decoding is not total over its error monad: when the
seconds part parses to a non-finite or overflowing float with non-negative
sign ("NaNs", "1e300s"), the code reaches the panicking
`std::time::Duration::from_secs_f64` instead of constructing a decode
error, contradicting the claim that every failure surfaces as a decode
error. -/
theorem duration_decode_panics_on_nonfinite :
    durationVisitStr "NaNs" = .panics fromSecsPanicMsg
    ∧ durationVisitStr "1e300s" = .panics fromSecsPanicMsg := by
  constructor
  · decide
  · decide

set_option maxRecDepth 8000 in
/-- C5: every successfully decoded Duration satisfies the co-sign
invariant (seconds and nanos both non-negative or both non-positive, with
the nanos magnitude below 10^9), and decoding "-1.5s" yields
seconds = -1, nanos = -500000000. -/
theorem duration_decode_cosign :
    (∀ (s : String) (d : Duration), durationVisitStr s = .ok d →
      ((0 ≤ d.seconds ∧ 0 ≤ d.nanos) ∨ (d.seconds ≤ 0 ∧ d.nanos ≤ 0))
        ∧ d.nanos.natAbs < 10 ^ 9)
    ∧ durationVisitStr "-1.5s" = .ok ⟨-1, -500000000⟩ := by
  constructor
  · intro s d h
    unfold durationVisitStr at h
    split at h
    · exact Outcome.noConfusion h
    · split at h
      · exact Outcome.noConfusion h
      · split at h
        · -- negative branch: both fields re-negated
          split at h
          · exact Outcome.noConfusion h
          · exact Outcome.noConfusion h
          · rename_i sd hsd
            split at h
            · exact Outcome.noConfusion h
            · rename_i dd hdd
              cases h
              obtain ⟨hsec, hnan⟩ := tryIntoDuration_some hdd
              have hlt := fromSecsF64_ok_nanos hsd
              dsimp only
              refine ⟨Or.inr ⟨by omega, by omega⟩, by omega⟩
        · -- non-negative branch: fields taken as converted
          split at h
          · exact Outcome.noConfusion h
          · exact Outcome.noConfusion h
          · rename_i sd hsd
            split at h
            · exact Outcome.noConfusion h
            · rename_i dd hdd
              cases h
              obtain ⟨hsec, hnan⟩ := tryIntoDuration_some hdd
              have hlt := fromSecsF64_ok_nanos hsd
              refine ⟨Or.inl ⟨by omega, by omega⟩, by omega⟩
  · decide

set_option maxRecDepth 8000 in
theorem duration_decode_cosign_witness :
    ((0 ≤ (Duration.mk (-1) (-500000000)).seconds
        ∧ 0 ≤ (Duration.mk (-1) (-500000000)).nanos)
      ∨ ((Duration.mk (-1) (-500000000)).seconds ≤ 0
        ∧ (Duration.mk (-1) (-500000000)).nanos ≤ 0))
    ∧ (Duration.mk (-1) (-500000000)).nanos.natAbs < 10 ^ 9 :=
  duration_decode_cosign.1 "-1.5s" ⟨-1, -500000000⟩ (by decide)


theorem charToNat_inj {a b : Char} (h : a.toNat = b.toNat) : a = b :=
  Char.ext (UInt32.toNat.inj h)

theorem strLtLB_trans (a : List Char) :
    ∀ b c : List Char, strLtLB a b = true → strLtLB b c = true → strLtLB a c = true := by
  induction a with
  | nil =>
    intro b c hab hbc
    cases b with
    | nil => exact absurd hab (by simp [strLtLB])
    | cons y ys =>
      cases c with
      | nil => exact absurd hbc (by simp [strLtLB])
      | cons z zs => rfl
  | cons x xs ih =>
    intro b c hab hbc
    cases b with
    | nil => exact absurd hab (by simp [strLtLB])
    | cons y ys =>
      cases c with
      | nil => exact absurd hbc (by simp [strLtLB])
      | cons z zs =>
        simp only [strLtLB] at hab hbc ⊢
        split at hab
        · rename_i hxy
          split at hbc
          · rename_i hyz
            rw [if_pos (by omega)]
          · split at hbc
            · exact absurd hbc (by decide)
            · rename_i hyz hzy
              rw [if_pos (by omega)]
        · split at hab
          · exact absurd hab (by decide)
          · rename_i hxy hyx
            split at hbc
            · rename_i hyz
              rw [if_pos (by omega)]
            · split at hbc
              · exact absurd hbc (by decide)
              · rename_i hyz hzy
                rw [if_neg (by omega), if_neg (by omega)]
                exact ih ys zs hab hbc

theorem strLtLB_total (a : List Char) :
    ∀ b : List Char, strLtLB a b = true ∨ a = b ∨ strLtLB b a = true := by
  induction a with
  | nil =>
    intro b
    cases b with
    | nil => exact Or.inr (Or.inl rfl)
    | cons y ys => exact Or.inl rfl
  | cons x xs ih =>
    intro b
    cases b with
    | nil => exact Or.inr (Or.inr rfl)
    | cons y ys =>
      by_cases hxy : x.toNat < y.toNat
      · left
        simp only [strLtLB]
        rw [if_pos hxy]
      · by_cases hyx : y.toNat < x.toNat
        · right; right
          simp only [strLtLB]
          rw [if_pos hyx]
        · have hx : x = y := charToNat_inj (by omega)
          subst hx
          rcases ih ys with h | h | h
          · left
            simp only [strLtLB]
            rw [if_neg (by omega), if_neg (by omega)]
            exact h
          · right; left
            rw [h]
          · right; right
            simp only [strLtLB]
            rw [if_neg (by omega), if_neg (by omega)]
            exact h

theorem strLtB_trans {a b c : String} (h1 : strLtB a b = true) (h2 : strLtB b c = true) :
    strLtB a c = true :=
  strLtLB_trans a.data b.data c.data h1 h2

theorem strLtB_total (a b : String) : strLtB a b = true ∨ a = b ∨ strLtB b a = true := by
  rcases strLtLB_total a.data b.data with h | h | h
  · exact Or.inl h
  · refine Or.inr (Or.inl ?_)
    cases a with
    | mk da =>
      cases b with
      | mk db =>
        have hdd : da = db := h
        rw [hdd]
  · exact Or.inr (Or.inr h)

theorem insertSorted_mem {l : List (String × Value)} {k : String} {v : Value}
    {x : String × Value} (hx : x ∈ insertSorted l k v) : x = (k, v) ∨ x ∈ l := by
  induction l with
  | nil => simpa [insertSorted] using hx
  | cons p t ih =>
    obtain ⟨kh, vh⟩ := p
    unfold insertSorted at hx
    split at hx
    · rcases List.mem_cons.mp hx with rfl | hx
      · exact Or.inl rfl
      · exact Or.inr hx
    · split at hx
      · rcases List.mem_cons.mp hx with rfl | hx
        · exact Or.inl rfl
        · exact Or.inr (List.mem_cons.mpr (Or.inr hx))
      · rcases List.mem_cons.mp hx with rfl | hx
        · exact Or.inr (List.mem_cons.mpr (Or.inl rfl))
        · rcases ih hx with h | h
          · exact Or.inl h
          · exact Or.inr (List.mem_cons.mpr (Or.inr h))

theorem insertSorted_pairwise {l : List (String × Value)}
    (hp : List.Pairwise (fun a b : String × Value => strLtB a.1 b.1 = true) l)
    (k : String) (v : Value) :
    List.Pairwise (fun a b : String × Value => strLtB a.1 b.1 = true)
      (insertSorted l k v) := by
  induction l with
  | nil => simp [insertSorted]
  | cons p t ih =>
    obtain ⟨kh, vh⟩ := p
    obtain ⟨hhead, htail⟩ := List.pairwise_cons.mp hp
    unfold insertSorted
    split
    · rename_i hlt
      refine List.pairwise_cons.mpr ⟨?_, hp⟩
      intro x hx
      rcases List.mem_cons.mp hx with rfl | hx
      · exact hlt
      · exact strLtB_trans hlt (hhead x hx)
    · split
      · rename_i hlt heq
        subst heq
        refine List.pairwise_cons.mpr ⟨?_, htail⟩
        intro x hx
        exact hhead x hx
      · rename_i hlt hne
        refine List.pairwise_cons.mpr ⟨?_, ih htail⟩
        intro x hx
        rcases insertSorted_mem hx with rfl | hx
        · rcases strLtB_total k kh with h | h | h
          · exact absurd h hlt
          · exact absurd h hne
          · exact h
        · exact hhead x hx

theorem insertAll_pairwise (entries : List (String × Value)) :
    ∀ acc : List (String × Value),
      List.Pairwise (fun a b : String × Value => strLtB a.1 b.1 = true) acc →
      List.Pairwise (fun a b : String × Value => strLtB a.1 b.1 = true)
        (insertAll acc entries) := by
  induction entries with
  | nil => intro acc h; exact h
  | cons p t ih =>
    intro acc h
    obtain ⟨k, v⟩ := p
    exact ih _ (insertSorted_pairwise h k v)

theorem serialize_ok_of_valid_bounded (N : Nat) :
    (∀ v, sizeV v ≤ N → validValue v = true → isOkE (serializeValue v) = true)
    ∧ (∀ k, sizeK k ≤ N → validKind k = true → isOkE (serializeKind k) = true)
    ∧ (∀ fs, sizeF fs ≤ N → validFields fs = true → isOkE (serializeFields fs) = true)
    ∧ (∀ vs, sizeL vs ≤ N → validList vs = true → isOkE (serializeList vs) = true) := by
  induction N with
  | zero =>
    refine ⟨?_, ?_, ?_, ?_⟩
    · intro v hs
      exfalso
      cases v with
      | mk o => cases o <;> simp [sizeV] at hs
    · intro k hs
      exfalso
      cases k <;> simp [sizeK] at hs
    · intro fs hs _
      cases fs with
      | nil => rfl
      | cons p t =>
        exfalso
        obtain ⟨a, b⟩ := p
        simp [sizeF] at hs
    · intro vs hs _
      cases vs with
      | nil => rfl
      | cons v t =>
        exfalso
        simp [sizeL] at hs
  | succ n ih =>
    obtain ⟨ihv, ihk, ihf, ihl⟩ := ih
    refine ⟨?_, ?_, ?_, ?_⟩
    · intro v hs hv
      cases v with
      | mk o =>
        cases o with
        | none => exact absurd hv (by simp [validValue])
        | some k =>
          have hsk : sizeK k ≤ n := by
            simp only [sizeV] at hs
            omega
          exact ihk k hsk hv
    · intro k hs hk
      cases k with
      | nullValue v => rfl
      | numberValue x =>
        have hfin : x.isFinite = true := hk
        simp only [serializeKind, hfin, if_true]
        rfl
      | stringValue s => rfl
      | boolValue b => rfl
      | structValue fs =>
        have hsz : sizeF fs ≤ n := by
          simp only [sizeK] at hs
          omega
        have hok := ihf fs hsz hk
        cases hres : serializeFields fs with
        | ok l => simp [serializeKind, hres, isOkE]
        | error e =>
          rw [hres] at hok
          exact absurd hok (by simp [isOkE])
      | listValue vs =>
        have hsz : sizeL vs ≤ n := by
          simp only [sizeK] at hs
          omega
        have hok := ihl vs hsz hk
        cases hres : serializeList vs with
        | ok l => simp [serializeKind, hres, isOkE]
        | error e =>
          rw [hres] at hok
          exact absurd hok (by simp [isOkE])
    · intro fs hs hf
      cases fs with
      | nil => rfl
      | cons p t =>
        obtain ⟨k, v⟩ := p
        have h1 : sizeV v ≤ n := by
          simp only [sizeF] at hs
          omega
        have h2 : sizeF t ≤ n := by
          simp only [sizeF] at hs
          omega
        have hv : validValue v = true := by
          simp only [validFields, Bool.and_eq_true] at hf
          exact hf.1
        have ht : validFields t = true := by
          simp only [validFields, Bool.and_eq_true] at hf
          exact hf.2
        have hov := ihv v h1 hv
        have hot := ihf t h2 ht
        cases hres : serializeValue v with
        | error e =>
          rw [hres] at hov
          exact absurd hov (by simp [isOkE])
        | ok j =>
          cases hres2 : serializeFields t with
          | error e =>
            rw [hres2] at hot
            exact absurd hot (by simp [isOkE])
          | ok l => simp [serializeFields, hres, hres2, isOkE]
    · intro vs hs hf
      cases vs with
      | nil => rfl
      | cons v t =>
        have h1 : sizeV v ≤ n := by
          simp only [sizeL] at hs
          omega
        have h2 : sizeL t ≤ n := by
          simp only [sizeL] at hs
          omega
        have hv : validValue v = true := by
          simp only [validList, Bool.and_eq_true] at hf
          exact hf.1
        have ht : validList t = true := by
          simp only [validList, Bool.and_eq_true] at hf
          exact hf.2
        have hov := ihv v h1 hv
        have hot := ihl t h2 ht
        cases hres : serializeValue v with
        | error e =>
          rw [hres] at hov
          exact absurd hov (by simp [isOkE])
        | ok j =>
          cases hres2 : serializeList t with
          | error e =>
            rw [hres2] at hot
            exact absurd hot (by simp [isOkE])
          | ok l => simp [serializeList, hres, hres2, isOkE]


/-- C4: encoding a Value with no tag set fails with "variant must be set";
encoding a Number-tagged Value whose payload is NaN or infinite fails;
every Value whose union tags are all set and whose number payloads are all
finite (`validValue`) encodes successfully; and the encoder dispatches per
tag — Null emits JSON null, String and Bool pass through, finite Numbers
become JSON numbers, Struct and List recurse element-by-element. -/
theorem value_encode_union_checks :
    serializeValue (.mk none) = .error (.custom "invalid value: variant must be set")
    ∧ serializeValue (.mk (some (.numberValue .nan)))
        = .error (.custom "number values must not be NaN or infinite")
    ∧ serializeValue (.mk (some (.numberValue .inf)))
        = .error (.custom "number values must not be NaN or infinite")
    ∧ serializeValue (.mk (some (.numberValue .neginf)))
        = .error (.custom "number values must not be NaN or infinite")
    ∧ (∀ v : Value, validValue v = true → isOkE (serializeValue v) = true)
    ∧ (∀ n : Int, serializeValue (.mk (some (.nullValue n))) = .ok .null)
    ∧ (∀ s : String, serializeValue (.mk (some (.stringValue s))) = .ok (.str s))
    ∧ (∀ b : Bool, serializeValue (.mk (some (.boolValue b))) = .ok (.bool b))
    ∧ (∀ q : QR, serializeValue (.mk (some (.numberValue (.finite q))))
        = .ok (.numF (.finite q)))
    ∧ (∀ fields, serializeValue (.mk (some (.structValue fields)))
        = match serializeFields fields with
          | .ok l => .ok (.obj l)
          | .error e => .error e)
    ∧ (∀ k v t, serializeFields ((k, v) :: t)
        = match serializeValue v with
          | .error e => .error e
          | .ok j =>
            match serializeFields t with
            | .error e => .error e
            | .ok l => .ok ((k, j) :: l))
    ∧ (∀ values, serializeValue (.mk (some (.listValue values)))
        = match serializeList values with
          | .ok l => .ok (.arr l)
          | .error e => .error e)
    ∧ (∀ v t, serializeList (v :: t)
        = match serializeValue v with
          | .error e => .error e
          | .ok j =>
            match serializeList t with
            | .error e => .error e
            | .ok l => .ok (j :: l)) := by
  refine ⟨rfl, rfl, rfl, rfl, ?_, fun n => rfl, fun s => rfl, fun b => rfl, fun q => rfl,
    fun fields => rfl, fun k v t => rfl, fun values => rfl, fun v t => rfl⟩
  intro v hv
  exact (serialize_ok_of_valid_bounded (sizeV v)).1 v (Nat.le_refl _) hv

theorem value_encode_union_checks_witness :
    isOkE (serializeValue (.mk (some (.structValue
      [("a", .mk (some (.boolValue true))),
       ("b", .mk (some (.listValue [.mk (some (.numberValue (.finite ⟨1, 1⟩))),
                                    .mk (some (.nullValue 0))])))])))) = true :=
  value_encode_union_checks.2.2.2.2.1 _ rfl

/-- C6: Value decoding maps every token kind to the corresponding tag:
booleans to Bool, i64/u64 tokens to Number via the `as f64` widening cast
(exact whenever the magnitude is at most 2^53), float tokens to Number,
strings to String, null to the Null tag, sequences to List with elements
recursively decoded in order, and mappings to Struct with entries
recursively decoded into a `BTreeMap`, whose entry list iterates in
strictly ascending (sorted-by-key, hence deterministic) key order. -/
theorem value_decode_dispatch :
    (∀ b, decodeValue (.bool b) = .mk (some (.boolValue b)))
    ∧ (∀ n : Int, decodeValue (.numI n) = .mk (some (.numberValue (.finite (castIntF64 n)))))
    ∧ (∀ n : Nat, decodeValue (.numU n)
        = .mk (some (.numberValue (.finite (castIntF64 (n : Int))))))
    ∧ (∀ n : Int, n.natAbs ≤ 2 ^ 53 → castIntF64 n = qrOfInt n)
    ∧ (∀ x, decodeValue (.numF x) = .mk (some (.numberValue x)))
    ∧ (∀ s, decodeValue (.str s) = .mk (some (.stringValue s)))
    ∧ decodeValue .null = .mk (some (.nullValue 0))
    ∧ (∀ items, decodeValue (.arr items) = .mk (some (.listValue (decodeList items))))
    ∧ decodeList [] = []
    ∧ (∀ j t, decodeList (j :: t) = decodeValue j :: decodeList t)
    ∧ (∀ entries, decodeValue (.obj entries)
        = .mk (some (.structValue (insertAll [] (decodeEntries entries)))))
    ∧ (∀ k j t, decodeEntries ((k, j) :: t) = (k, decodeValue j) :: decodeEntries t)
    ∧ (∀ entries, List.Pairwise (fun a b : String × Value => strLtB a.1 b.1 = true)
        (insertAll [] (decodeEntries entries))) := by
  refine ⟨fun b => rfl, fun n => rfl, fun n => rfl, fun n h => ?_, fun x => rfl,
    fun s => rfl, rfl, fun items => rfl, rfl, fun j t => rfl, fun entries => rfl,
    fun k j t => rfl, fun entries => ?_⟩
  · unfold castIntF64
    rw [if_pos h]
    rfl
  · exact insertAll_pairwise (decodeEntries entries) [] List.Pairwise.nil

theorem value_decode_dispatch_witness : castIntF64 42 = qrOfInt 42 :=
  value_decode_dispatch.2.2.2.1 42 (by decide)

end ProstSerde
